import Mathlib

/-!
Verification of the dBwatch range/transition animation state machine.

The development shallowly embeds the animation core of the repository:
numeric loudness values are rationals (an `Option ℚ` input, where `none`
stands for a missing or non-finite reading that the code normalizes),
range identifiers are the strings the code uses, JavaScript's `null` /
`undefined` / empty-string falsiness on range names is represented by the
empty string, timestamps are integers (milliseconds), and the cooperative
asynchronous controller is embedded as a small-step system over explicit
coroutine programs whose suspension points are the `await`ed player loads
and timed delays.
-/

namespace DbWatch

/-- Ordered state identifiers (model.js, `STATE_SEQUENCE`). -/
def STATE_SEQUENCE : List String := ["S1", "S2", "S3", "SF"]

/-- Default duration for a transition descriptor that leaves it unspecified
(model.js, `DEFAULT_TRANSITION_DURATION`). -/
def DEFAULT_TRANSITION_DURATION : Nat := 2000

/-- Interval test of each configured range (model.js, `ranges`): S1 is
`v < 75`, S2 is `v >= 75 && v < 90`, S3 is `v >= 90`.  `ranges` has no
entry for `SF`, and the optional-chained `ranges[key]?.test?.(value)` is
falsy there, embedded as `false` for every other key. -/
def rangeTest (key : String) (v : ℚ) : Bool :=
  if key = "S1" then decide (v < 75)
  else if key = "S2" then decide (75 ≤ v) && decide (v < 90)
  else if key = "S3" then decide (90 ≤ v)
  else false

/-- The classifier's scan over `STATE_SEQUENCE`: first key whose range test
matches, `none` when no test matches (model.js, `classify` loop body). -/
def classifyLoop (v : ℚ) : List String → Option String
  | [] => none
  | k :: ks => if rangeTest k v then some k else classifyLoop v ks

/-- `classify` (model.js): a missing or non-finite reading is normalized to
`0`; the value is matched against the ranges in order, and if no test
matches the last identifier of the order is returned. -/
def classify (dbValue : Option ℚ) : String :=
  let value := dbValue.getD 0
  (classifyLoop value STATE_SEQUENCE).getD (STATE_SEQUENCE.getLastD "")

/-- Per-range steady clip descriptor (model.js, `files.state` entries).
`mode` and `loop` are optional because the consumer applies defaults. -/
structure StateConfig where
  file : String
  mode : Option String
  loop : Option Bool
deriving DecidableEq

/-- `getStateConfig` (model.js): steady clip configuration of a range,
`none` for an unknown key. -/
def getStateConfig (range : String) : Option StateConfig :=
  if range = "S1" then some ⟨"./media/state_1.json", some "forward", some true⟩
  else if range = "S2" then some ⟨"./media/state_2.json", some "forward", some true⟩
  else if range = "S3" then some ⟨"./media/state_3.json", some "forward", some true⟩
  else if range = "SF" then some ⟨"./media/state_final.json", some "forward", some true⟩
  else none

/-- A transition clip descriptor (model.js, `files.transition` entries). -/
structure TransitionBase where
  file : String
  durationMs : Option Nat
deriving DecidableEq

/-- `files.transition` (model.js): descriptors keyed by the ascending
adjacent pair.  Only `S1_S2` and `S2_S3` are configured. -/
def filesTransition (key : String) : Option TransitionBase :=
  if key = "S1_S2" then some ⟨"./media/transition_1_2.json", some 700⟩
  else if key = "S2_S3" then some ⟨"./media/transition_2_3.json", some 467⟩
  else none

/-- JavaScript `Array.prototype.indexOf` on a list of strings: index of the
first occurrence, `-1` when absent. -/
def indexOfJs (x : String) : List String → Int
  | [] => -1
  | y :: ys =>
    if y = x then 0
    else
      let r := indexOfJs x ys
      if r = -1 then -1 else r + 1

/-- `getRangeDirection` (model.js): `steady` when either side is falsy,
equal, or unknown; otherwise `up` or `down` by order position. -/
def getRangeDirection (prevRange nextRange : String) : String :=
  if prevRange = "" ∨ nextRange = "" ∨ prevRange = nextRange then "steady"
  else
    let prevIndex := indexOfJs prevRange STATE_SEQUENCE
    let nextIndex := indexOfJs nextRange STATE_SEQUENCE
    if prevIndex = -1 ∨ nextIndex = -1 then "steady"
    else if nextIndex > prevIndex then "up"
    else if nextIndex < prevIndex then "down"
    else "steady"

/-- A resolved transition plan (the object literal built by
`resolveTransition` in model.js, with the duration default applied). -/
structure TransitionPlan where
  key : String
  direction : String
  file : String
  durationMs : Nat
  mode : String
deriving DecidableEq

/-- `resolveTransition` (model.js): `none` for steady direction, unknown
ranges, or non-adjacent positions; otherwise looks up the descriptor keyed
by the ascending pair and orients the clip (`forward` when moving up,
`reverse` when moving down). -/
def resolveTransition (prevRange nextRange : String) : Option TransitionPlan :=
  let direction := getRangeDirection prevRange nextRange
  if direction = "steady" then none
  else
    let prevIndex := indexOfJs prevRange STATE_SEQUENCE
    let nextIndex := indexOfJs nextRange STATE_SEQUENCE
    if prevIndex = -1 ∨ nextIndex = -1 then none
    else if (prevIndex - nextIndex).natAbs ≠ 1 then none
    else
      let pair := if direction = "up" then (prevRange, nextRange) else (nextRange, prevRange)
      let key := pair.1 ++ "_" ++ pair.2
      match filesTransition key with
      | none => none
      | some base =>
        some ⟨key, direction, base.file, base.durationMs.getD DEFAULT_TRANSITION_DURATION,
              if direction = "up" then "forward" else "reverse"⟩

/-- The inclusive index walk of `buildRangePath`'s loop (model.js): starting
at index `i`, step up or down `n` times through `STATE_SEQUENCE`, collecting
each visited identifier. -/
def walkIdx (i : Nat) (up : Bool) : Nat → List String
  | 0 => [STATE_SEQUENCE.getD i ""]
  | n + 1 => STATE_SEQUENCE.getD i "" :: walkIdx (if up then i + 1 else i - 1) up n

/-- `buildRangePath` (model.js): the inclusive chain of identifiers from
`prevRange` to `nextRange`, one order position at a time; degenerate inputs
collapse to `[nextRange]` (or `[]` when `nextRange` itself is falsy). -/
def buildRangePath (prevRange nextRange : String) : List String :=
  if prevRange = "" ∨ nextRange = "" then
    if nextRange = "" then [] else [nextRange]
  else
    let prevIndex := indexOfJs prevRange STATE_SEQUENCE
    let nextIndex := indexOfJs nextRange STATE_SEQUENCE
    if prevIndex = -1 ∨ nextIndex = -1 then [nextRange]
    else if prevIndex = nextIndex then [nextRange]
    else
      let pI := prevIndex.toNat
      let nI := nextIndex.toNat
      if nI > pI then walkIdx pI true (nI - pI) else walkIdx pI false (pI - nI)

/-! Background color mapper (the `getBackgroundColor` section of the
animation model variant that carries it).  The arithmetic of the mapper is
expressed through explicit normalized-fraction operations `qadd`, `qsub`,
`qmul`, `qdiv` so that every definition evaluates inside the kernel; the
lemmas `qadd_eq_add` … `qdiv_eq_div` below prove that they are exactly
rational addition, subtraction, multiplication and division. -/

/-- Rational addition, computed on numerators and denominators. -/
def qadd (a b : ℚ) : ℚ := mkRat (a.num * b.den + b.num * a.den) (a.den * b.den)

/-- Rational subtraction, computed on numerators and denominators. -/
def qsub (a b : ℚ) : ℚ := mkRat (a.num * b.den - b.num * a.den) (a.den * b.den)

/-- Rational multiplication, computed on numerators and denominators. -/
def qmul (a b : ℚ) : ℚ := mkRat (a.num * b.num) (a.den * b.den)

/-- Rational division, computed on numerators and denominators. -/
def qdiv (a b : ℚ) : ℚ :=
  if b.num < 0 then mkRat (-(a.num * b.den)) (a.den * b.num.natAbs)
  else mkRat (a.num * b.den) (a.den * b.num.natAbs)

theorem num_cast_eq (a : ℚ) : (a.num : ℚ) = a * a.den :=
  (div_eq_iff (by exact_mod_cast a.den_nz)).mp (Rat.num_div_den a)

theorem qadd_eq_add (a b : ℚ) : qadd a b = a + b := by
  have ha : (a.den : ℚ) ≠ 0 := by exact_mod_cast a.den_nz
  have hb : (b.den : ℚ) ≠ 0 := by exact_mod_cast b.den_nz
  rw [qadd, Rat.mkRat_eq_div, div_eq_iff (by push_cast; exact mul_ne_zero ha hb)]
  push_cast
  rw [num_cast_eq a, num_cast_eq b]
  ring

theorem qsub_eq_sub (a b : ℚ) : qsub a b = a - b := by
  have ha : (a.den : ℚ) ≠ 0 := by exact_mod_cast a.den_nz
  have hb : (b.den : ℚ) ≠ 0 := by exact_mod_cast b.den_nz
  rw [qsub, Rat.mkRat_eq_div, div_eq_iff (by push_cast; exact mul_ne_zero ha hb)]
  push_cast
  rw [num_cast_eq a, num_cast_eq b]
  ring

theorem qmul_eq_mul (a b : ℚ) : qmul a b = a * b := by
  have ha : (a.den : ℚ) ≠ 0 := by exact_mod_cast a.den_nz
  have hb : (b.den : ℚ) ≠ 0 := by exact_mod_cast b.den_nz
  rw [qmul, Rat.mkRat_eq_div, div_eq_iff (by push_cast; exact mul_ne_zero ha hb)]
  push_cast
  rw [num_cast_eq a, num_cast_eq b]
  ring

theorem qdiv_eq_div (a b : ℚ) : qdiv a b = a / b := by
  have ha : (a.den : ℚ) ≠ 0 := by exact_mod_cast a.den_nz
  have hb : (b.den : ℚ) ≠ 0 := by exact_mod_cast b.den_nz
  rw [qdiv]
  rcases lt_trichotomy b.num 0 with h | h | h
  · have hb0 : b ≠ 0 := fun hz => by simp [hz] at h
    have habs : ((b.num.natAbs : ℚ)) = -(b.num : ℚ) := by
      push_cast [Int.cast_natAbs]
      exact abs_of_neg (by exact_mod_cast h)
    have hden : ((a.den * b.num.natAbs : ℕ) : ℚ) ≠ 0 := by
      push_cast
      exact mul_ne_zero ha (by rw [habs]; exact neg_ne_zero.mpr (by exact_mod_cast h.ne))
    rw [if_pos h, Rat.mkRat_eq_div, div_eq_div_iff hden hb0]
    push_cast
    rw [habs, num_cast_eq a, num_cast_eq b]
    ring
  · have hb0 : b = 0 := by
      have := Rat.num_div_den b
      rw [h] at this
      simpa using this.symm
    subst hb0
    simp [Rat.mkRat_eq_div]
  · have hb0 : b ≠ 0 := fun hz => by simp [hz] at h
    have habs : ((b.num.natAbs : ℚ)) = (b.num : ℚ) := by
      push_cast [Int.cast_natAbs]
      exact abs_of_pos (by exact_mod_cast h)
    have hden : ((a.den * b.num.natAbs : ℕ) : ℚ) ≠ 0 := by
      push_cast
      exact mul_ne_zero ha (by rw [habs]; exact_mod_cast h.ne.symm)
    rw [if_neg (by omega), Rat.mkRat_eq_div, div_eq_div_iff hden hb0]
    push_cast
    rw [habs, num_cast_eq a, num_cast_eq b]
    ring

/-- A color keyframe `{ dB, hex }` (`COLOR_KEYFRAMES` entry). -/
structure ColorKeyframe where
  dB : ℚ
  hex : String
deriving DecidableEq

/-- The color keyframe table (`COLOR_KEYFRAMES`). -/
def COLOR_KEYFRAMES : List ColorKeyframe :=
  [⟨76, "#a4f12c"⟩, ⟨85, "#f1e22c"⟩, ⟨95, "#ef8e2e"⟩, ⟨105, "#ee5b2d"⟩]

/-- An RGB triple.  Channels are rationals because `interpolateColor`
produces fractional channels that `rgbToHex` rounds. -/
structure Rgb where
  r : ℚ
  g : ℚ
  b : ℚ
deriving DecidableEq

/-- Value of one hexadecimal digit, case-insensitive (the character class
of `hexToRgb`'s regular expression). -/
def hexDigitVal (c : Char) : Option Nat :=
  if ('0' ≤ c ∧ c ≤ '9') then some (c.toNat - '0'.toNat)
  else if ('a' ≤ c ∧ c ≤ 'f') then some (c.toNat - 'a'.toNat + 10)
  else if ('A' ≤ c ∧ c ≤ 'F') then some (c.toNat - 'A'.toNat + 10)
  else none

/-- Value of a two-digit hexadecimal group. -/
def hexPairVal (c1 c2 : Char) : Option Nat :=
  match hexDigitVal c1, hexDigitVal c2 with
  | some hi, some lo => some (16 * hi + lo)
  | _, _ => none

/-- `hexToRgb`: parse `#rrggbb` (the leading `#` optional, digits
case-insensitive) into channel values; any mismatch yields black, as the
source's failed-regex branch does. -/
def hexToRgb (hex : String) : Rgb :=
  let cs := hex.toList
  let cs := match cs with
    | '#' :: rest => rest
    | other => other
  match cs with
  | [r1, r2, g1, g2, b1, b2] =>
    match hexPairVal r1 r2, hexPairVal g1 g2, hexPairVal b1 b2 with
    | some r, some g, some b => ⟨(r : ℚ), (g : ℚ), (b : ℚ)⟩
    | _, _, _ => ⟨0, 0, 0⟩
  | _ => ⟨0, 0, 0⟩

/-- JavaScript `Math.round`: round half toward positive infinity. -/
def jsRound (q : ℚ) : Int := (qadd q (mkRat 1 2)).floor

/-- Lowercase hexadecimal rendering of a natural number
(`Number.prototype.toString(16)` for the non-negative values in use). -/
def natToHexStr (n : Nat) : String := String.mk (Nat.toDigits 16 n)

/-- The `toHex` helper of `rgbToHex`: round the channel, render it in
base 16 and pad to two digits. -/
def toHexComponent (value : ℚ) : String :=
  let hex := natToHexStr (jsRound value).toNat
  if hex.length = 1 then "0" ++ hex else hex

/-- `rgbToHex`: `#` followed by the three rounded, padded channels. -/
def rgbToHex (rgb : Rgb) : String :=
  "#" ++ toHexComponent rgb.r ++ toHexComponent rgb.g ++ toHexComponent rgb.b

/-- `lerp(start, end, factor) = start + (end - start) * factor`. -/
def lerp (start stop factor : ℚ) : ℚ := qadd start (qmul (qsub stop start) factor)

/-- `interpolateColor`: channel-wise linear interpolation. -/
def interpolateColor (colorA colorB : Rgb) (factor : ℚ) : Rgb :=
  ⟨lerp colorA.r colorB.r factor, lerp colorA.g colorB.g factor, lerp colorA.b colorB.b factor⟩

/-- The bracketing scan of `getBackgroundColor`'s loop: the first adjacent
keyframe pair `(current, next)` with `current.dB ≤ value < next.dB`. -/
def findBracket (value : ℚ) : List ColorKeyframe → Option (ColorKeyframe × ColorKeyframe)
  | current :: next :: rest =>
    if current.dB ≤ value ∧ value < next.dB then some (current, next)
    else findBracket value (next :: rest)
  | _ => none

/-- `getBackgroundColor`: clamp to the first color at or below the first
keyframe (non-finite input defaults to the first keyframe's loudness, 76),
clamp to the last color at or above the last keyframe, and otherwise
linearly interpolate between the bracketing keyframes; the final fallback
mirrors the source's defensive return of the first color. -/
def getBackgroundColor (dbValue : Option ℚ) : String :=
  let value := dbValue.getD 76
  let first := COLOR_KEYFRAMES.headD ⟨0, ""⟩
  let last := COLOR_KEYFRAMES.getLastD ⟨0, ""⟩
  if value ≤ first.dB then first.hex
  else if last.dB ≤ value then last.hex
  else
    match findBracket value COLOR_KEYFRAMES with
    | some (current, next) =>
      let range := qsub next.dB current.dB
      let position := qsub value current.dB
      let factor := qdiv position range
      let colorA := hexToRgb current.hex
      let colorB := hexToRgb next.hex
      rgbToHex (interpolateColor colorA colorB factor)
    | none => first.hex

/-! Sustained-state tracker (`animationState` in model.js).  JavaScript
`null` on `currentRange` is the empty string; `s3EnteredAt` is `none` when
null; timestamps are integer milliseconds. -/

/-- `SF_TIMEOUT_MS` (model.js). -/
def SF_TIMEOUT_MS : Int := 10000

/-- Mutable fields of `animationState`. -/
structure TrackerState where
  currentRange : String
  inSF : Bool
  s3EnteredAt : Option Int
deriving DecidableEq

/-- The tracker after `animationState.reset()`, which is also its initial
configuration. -/
def trackerReset : TrackerState := ⟨"", false, none⟩

/-- The `{ range, transition }` object returned by
`animationState.update`. -/
structure UpdateResult where
  range : String
  transition : Option TransitionPlan
deriving DecidableEq

/-- `animationState.update(dbValue, now)` (model.js): while in `SF`, exit
only on an `S2` classification, emitting the reverse `S2_S3` transition;
otherwise track dwell time in `S3` and promote to `SF` silently once the
dwell reaches `SF_TIMEOUT_MS`; any non-`S3` reading clears the dwell timer
and resolves a transition from the previously recorded range. -/
def animUpdate (s : TrackerState) (dbValue : Option ℚ) (now : Int) :
    TrackerState × UpdateResult :=
  let baseRange := classify dbValue
  if s.inSF then
    if baseRange = "S2" then
      match filesTransition "S2_S3" with
      | some base =>
        (⟨"S2", false, none⟩,
         ⟨"S2", some ⟨"S2_S3", "down", base.file,
                      base.durationMs.getD DEFAULT_TRANSITION_DURATION, "reverse"⟩⟩)
      | none => (⟨"S2", false, none⟩, ⟨"S2", resolveTransition "S3" "S2"⟩)
    else
      ({ s with currentRange := "SF" }, ⟨"SF", none⟩)
  else if baseRange = "S3" then
    let s3At := s.s3EnteredAt.getD now
    if SF_TIMEOUT_MS ≤ now - s3At then
      (⟨"SF", true, none⟩, ⟨"SF", none⟩)
    else
      (⟨"S3", s.inSF, some s3At⟩, ⟨"S3", resolveTransition s.currentRange "S3"⟩)
  else
    (⟨baseRange, s.inSF, none⟩, ⟨baseRange, resolveTransition s.currentRange baseRange⟩)

/-- Iterated tracker updates over a list of `(value, timestamp)` readings. -/
def runUpdates (s : TrackerState) : List (Option ℚ × Int) → TrackerState
  | [] => s
  | (v, t) :: rest => runUpdates (animUpdate s v t).1 rest

/-! Animation controller (controller.js), embedded as a cooperative
small-step system.  A playback sequence spawned by `onReading` is a
coroutine program whose `load` and `delay` nodes are the `await`ed
suspension points; `check` nodes are the synchronous
`sequenceId !== sequenceCounter` comparisons and `setPrev` nodes are the
synchronous `previousRange = nextRange` assignments.  One atomic step of a
coroutine executes synchronous nodes until it has performed a single
`load` or `delay`, exactly as the JavaScript runs between two `await`s. -/

/-- One `player.load` call as issued by `loadClip`, tagged with the
sequence token that issued it. -/
structure TaggedCall where
  token : Nat
  src : String
  mode : String
  loop : Bool
deriving DecidableEq

/-- Module-level controller state: `previousRange` and `sequenceCounter`
(controller.js), the tracker it drives, the last applied background color
and the trace of issued player calls. -/
structure CtrlState where
  previousRange : String
  sequenceCounter : Nat
  tracker : TrackerState
  bgColor : Option String
  calls : List TaggedCall
deriving DecidableEq

/-- Coroutine programs of a playback sequence. -/
inductive Prog where
  | done : Prog
  | load (src : String) (mode : String) (loop : Bool) (k : Prog) : Prog
  | delay (ms : Nat) (k : Prog) : Prog
  | check (kOk kStale : Prog) : Prog
  | setPrev (r : String) (k : Prog) : Prog
deriving DecidableEq

/-- `playSteady(range, sequenceId)`: re-check the token, then load the
range's steady clip with its configured mode and loop flag (defaults
applied by `loadClip`'s call site); a stale token or missing configuration
skips the load and falls through to the continuation. -/
def playSteadyProg (range : String) (k : Prog) : Prog :=
  .check
    (match getStateConfig range with
     | some cfg => .load cfg.file (cfg.mode.getD "forward") (cfg.loop.getD true) k
     | none => k)
    k

/-- The loop of `playTransitionSequence` over consecutive path pairs plus
its trailing `playSteady` on the final range: before each pair the token is
re-checked (a stale token returns to the caller's continuation `k`); a
missing transition descriptor is skipped silently; after each issued load
the token is re-checked before waiting the transition's duration. -/
def ptsLoop (k : Prog) : List String → Prog
  | a :: b :: rest =>
    .check
      (match resolveTransition a b with
       | none => ptsLoop k (b :: rest)
       | some tr =>
         .load tr.file tr.mode false (.check (.delay tr.durationMs (ptsLoop k (b :: rest))) k))
      k
  | [last] => playSteadyProg last k
  | [] => k

/-- `playTransitionSequence(path, sequenceId)`: empty paths return at once,
singleton paths go straight to `playSteady`, longer paths run the loop. -/
def playTransitionSequenceProg (path : List String) (k : Prog) : Prog :=
  match path with
  | [] => k
  | [single] => playSteadyProg single k
  | longer => ptsLoop k longer

/-- The playback plan `onReading` starts once it has decided to animate:
either the tracker's directly resolved single-step transition (load it,
wait its duration, `playSteady` the destination) or the decomposed range
path; both end by advancing `previousRange` to the resolved next range. -/
def mkProg (res : UpdateResult) (oldPrev : String) : Prog :=
  let fin := Prog.setPrev res.range .done
  match res.transition with
  | some tr => .load tr.file tr.mode false (.delay tr.durationMs (playSteadyProg res.range fin))
  | none => playTransitionSequenceProg (buildRangePath oldPrev res.range) fin

/-- The synchronous part of `onReading(dbValue)` (controller.js): apply the
background color unconditionally, stop if the player is unready, run the
tracker, take the steady-state fast path when nothing changed, and
otherwise claim a fresh sequence token and start the playback plan. -/
def onReadingStart (ready : Bool) (v : Option ℚ) (now : Int) (st : CtrlState) :
    CtrlState × Option (Nat × Prog) :=
  let st1 := { st with bgColor := some (getBackgroundColor v) }
  if ready = false then (st1, none)
  else
    let u := animUpdate st1.tracker v now
    let st2 := { st1 with tracker := u.1 }
    if u.2.range = "" then (st2, none)
    else if u.2.range = st2.previousRange ∧ u.2.transition = none then (st2, none)
    else
      let st3 := { st2 with sequenceCounter := st2.sequenceCounter + 1 }
      (st3, some (st3.sequenceCounter, mkProg u.2 st2.previousRange))

/-- One atomic coroutine step for token `tk`: run synchronous nodes
(`check`, `setPrev`) and stop after performing one suspension action.
`load` issues the player call exactly when `loadClip`'s guard passes
(player ready and a non-empty source). -/
def run1 (ready : Bool) (tk : Nat) : Prog → CtrlState → CtrlState × Option Prog
  | .done, st => (st, none)
  | .setPrev r k, st => run1 ready tk k { st with previousRange := r }
  | .check kOk kStale, st =>
    if tk = st.sequenceCounter then run1 ready tk kOk st else run1 ready tk kStale st
  | .delay _ k, st => (st, some k)
  | .load src mode lp k, st =>
    (if ready ∧ src ≠ "" then
       { st with calls := st.calls ++ [⟨tk, src, mode, lp⟩] }
     else st,
     some k)

/-- A system configuration: the controller state plus the coroutines of
in-flight playback sequences (a completed coroutine stays as `done`). -/
structure Sys where
  ctrl : CtrlState
  procs : List (Nat × Prog)
deriving DecidableEq

/-- External events: a new loudness reading (which runs synchronously
through `onReadingStart` and, when a sequence starts, through its first
atomic step), or the scheduler resuming the `i`-th pending coroutine at
one of its suspension points. -/
inductive Event where
  | reading (v : Option ℚ) (now : Int) : Event
  | resume (i : Nat) : Event

/-- One system step. -/
def stepSys (ready : Bool) (sys : Sys) : Event → Sys
  | .reading v now =>
    match onReadingStart ready v now sys.ctrl with
    | (st, none) => ⟨st, sys.procs⟩
    | (st, some (tk, p)) =>
      let r := run1 ready tk p st
      ⟨r.1, sys.procs ++ [(tk, r.2.getD .done)]⟩
  | .resume i =>
    match sys.procs[i]? with
    | none => sys
    | some (tk, p) =>
      let r := run1 ready tk p sys.ctrl
      ⟨r.1, sys.procs.set i (tk, r.2.getD .done)⟩

/-- Run a list of events. -/
def runSys (ready : Bool) (sys : Sys) (evs : List Event) : Sys :=
  evs.foldl (stepSys ready) sys

/-- Uninterrupted completion of one coroutine: the behavior of a playback
sequence when no other reading arrives before it finishes. -/
def runProg (ready : Bool) (tk : Nat) : Prog → CtrlState → CtrlState
  | .done, st => st
  | .setPrev r k, st => runProg ready tk k { st with previousRange := r }
  | .check kOk kStale, st =>
    if tk = st.sequenceCounter then runProg ready tk kOk st else runProg ready tk kStale st
  | .delay _ k, st => runProg ready tk k st
  | .load src mode lp k, st =>
    runProg ready tk k
      (if ready ∧ src ≠ "" then
         { st with calls := st.calls ++ [⟨tk, src, mode, lp⟩] }
       else st)

/-- A whole `onReading` call processed to completion with no interleaved
reading. -/
def onReadingSeq (ready : Bool) (v : Option ℚ) (now : Int) (st : CtrlState) : CtrlState :=
  match onReadingStart ready v now st with
  | (st1, none) => st1
  | (st1, some (tk, p)) => runProg ready tk p st1

/-- Initial controller state: `previousRange` is seeded by classifying `0`,
the counter starts at zero, the tracker is in its reset configuration. -/
def initCtrl : CtrlState := ⟨classify (some 0), 0, trackerReset, none, []⟩

/-- Initial system: no in-flight coroutine. -/
def initSys : Sys := ⟨initCtrl, []⟩

/-! Helper lemmas. -/

/-- Order position of a range identifier (JavaScript
`STATE_SEQUENCE.indexOf`). -/
def posOf (r : String) : Int := indexOfJs r STATE_SEQUENCE

theorem indexOfJs_of_not_mem {x : String} {L : List String} (h : x ∉ L) :
    indexOfJs x L = -1 := by
  induction L with
  | nil => rfl
  | cons y ys ih =>
    have hyx : y ≠ x := fun he => h (he ▸ List.mem_cons_self y ys)
    have hx : x ∉ ys := fun hm => h (List.mem_cons_of_mem y hm)
    simp [indexOfJs, hyx, ih hx]

theorem classify_of_lt {v : ℚ} (h : v < 75) : classify (some v) = "S1" := by
  simp [classify, classifyLoop, STATE_SEQUENCE, rangeTest, h]

theorem classify_of_mid {v : ℚ} (h1 : 75 ≤ v) (h2 : v < 90) : classify (some v) = "S2" := by
  simp [classify, classifyLoop, STATE_SEQUENCE, rangeTest, h1, h2, not_lt.mpr h1]

theorem classify_of_ge {v : ℚ} (h : 90 ≤ v) : classify (some v) = "S3" := by
  have h1 : ¬ v < 75 := not_lt.mpr (le_trans (by norm_num) h)
  have h2 : ¬ v < 90 := not_lt.mpr h
  simp [classify, classifyLoop, STATE_SEQUENCE, rangeTest, h, h1, h2]

theorem classify_cases (v : Option ℚ) :
    classify v = "S1" ∨ classify v = "S2" ∨ classify v = "S3" := by
  rcases v with _ | v
  · left; decide
  · rcases lt_or_le v 75 with h | h1
    · exact Or.inl (classify_of_lt h)
    · rcases lt_or_le v 90 with h2 | h2
      · exact Or.inr (Or.inl (classify_of_mid h1 h2))
      · exact Or.inr (Or.inr (classify_of_ge h2))

theorem resolveTransition_of_steady {a b : String} (h : getRangeDirection a b = "steady") :
    resolveTransition a b = none := by
  simp [resolveTransition, h]

theorem getRangeDirection_not_mem {a b : String} (h : a ∉ STATE_SEQUENCE ∨ b ∉ STATE_SEQUENCE) :
    getRangeDirection a b = "steady" := by
  by_cases hc : a = "" ∨ b = "" ∨ a = b
  · simp [getRangeDirection, hc]
  · rcases h with h | h
    · simp [getRangeDirection, hc, indexOfJs_of_not_mem h, posOf]
    · simp [getRangeDirection, hc, indexOfJs_of_not_mem h, posOf]

/-! Claim theorems for the classifier, resolver and path builder. -/

/-- C3: `classify` is total and deterministic; every rational value
satisfies exactly one range test, and `classify` returns a matching range;
missing or non-finite input is classified as `0` is; and the scan's
fallback returns the last identifier of the scanned order whenever no test
matches. -/
theorem claim_C3 :
    (∀ v : ℚ, ∃! k, k ∈ STATE_SEQUENCE ∧ rangeTest k v = true) ∧
    (∀ v : ℚ, rangeTest (classify (some v)) v = true) ∧
    classify none = classify (some 0) ∧
    (∀ (v : ℚ) (L : List String), classifyLoop v L = none →
      (classifyLoop v L).getD (L.getLastD "") = L.getLastD "") := by
  refine ⟨?_, ?_, by decide, ?_⟩
  · intro v
    rcases lt_or_le v 75 with h | h1
    · refine ⟨"S1", ⟨by simp [STATE_SEQUENCE], by simp [rangeTest, h]⟩, ?_⟩
      rintro k ⟨hk, ht⟩
      fin_cases hk
      · rfl
      · simp [rangeTest] at ht
        linarith [ht.1]
      · simp [rangeTest] at ht
        linarith
      · simp [rangeTest] at ht
    · rcases lt_or_le v 90 with h2 | h2
      · refine ⟨"S2", ⟨by simp [STATE_SEQUENCE], by simp [rangeTest, h1, h2]⟩, ?_⟩
        rintro k ⟨hk, ht⟩
        fin_cases hk
        · simp [rangeTest] at ht
          linarith
        · rfl
        · simp [rangeTest] at ht
          linarith
        · simp [rangeTest] at ht
      · refine ⟨"S3", ⟨by simp [STATE_SEQUENCE], by simp [rangeTest, h2]⟩, ?_⟩
        rintro k ⟨hk, ht⟩
        fin_cases hk
        · simp [rangeTest] at ht
          linarith
        · simp [rangeTest] at ht
          linarith [ht.2]
        · rfl
        · simp [rangeTest] at ht
  · intro v
    rcases lt_or_le v 75 with h | h1
    · rw [classify_of_lt h]; simp [rangeTest, h]
    · rcases lt_or_le v 90 with h2 | h2
      · rw [classify_of_mid h1 h2]; simp [rangeTest, h1, h2]
      · rw [classify_of_ge h2]; simp [rangeTest, h2]
  · intro v L h
    simp [h]

/-- C3 witness: the unique matching range of the value 80 is `S2`, the
classifier agrees, and a scan with no matching test falls back to the last
identifier. -/
theorem claim_C3_witness :
    (rangeTest "S2" 80 = true) ∧ rangeTest (classify (some 80)) 80 = true ∧
    classifyLoop 80 ["SF"] = none ∧
    (classifyLoop 80 ["SF"]).getD (["SF"].getLastD "") = ["SF"].getLastD "" :=
  ⟨by decide, claim_C3.2.1 80, by decide, claim_C3.2.2.2 80 ["SF"] (by decide)⟩

/-- C10: the classifier never produces the final marker `SF`: every input
is classified as `S1`, `S2` or `S3`, so the defensive fallback branch never
fires and the final state is unreachable through classification. -/
theorem claim_C10 (v : Option ℚ) :
    classify v ≠ "SF" ∧ (classify v = "S1" ∨ classify v = "S2" ∨ classify v = "S3") := by
  have h := classify_cases v
  refine ⟨?_, h⟩
  rcases h with h | h | h <;> simp [h]

/-- C4: `resolveTransition` is `null` on equal ranges, on ranges outside
the state order, and on non-adjacent positions; on an adjacent pair whose
ascending key has a configured descriptor it returns that descriptor's file
and duration (defaulting to 2000 ms when unspecified), played forward when
moving up and in reverse when moving down. -/
theorem claim_C4 :
    (∀ r : String, resolveTransition r r = none) ∧
    (∀ a b : String, (a ∉ STATE_SEQUENCE ∨ b ∉ STATE_SEQUENCE) →
      resolveTransition a b = none) ∧
    (∀ a b : String, a ∈ STATE_SEQUENCE → b ∈ STATE_SEQUENCE →
      (posOf a - posOf b).natAbs ≠ 1 → resolveTransition a b = none) ∧
    (∀ a b : String, a ∈ STATE_SEQUENCE → b ∈ STATE_SEQUENCE → posOf b = posOf a + 1 →
      ∀ d, filesTransition (a ++ "_" ++ b) = some d →
        resolveTransition a b =
          some ⟨a ++ "_" ++ b, "up", d.file,
                d.durationMs.getD DEFAULT_TRANSITION_DURATION, "forward"⟩ ∧
        resolveTransition b a =
          some ⟨a ++ "_" ++ b, "down", d.file,
                d.durationMs.getD DEFAULT_TRANSITION_DURATION, "reverse"⟩) := by
  refine ⟨?_, ?_, ?_, ?_⟩
  · intro r
    exact resolveTransition_of_steady (by simp [getRangeDirection])
  · intro a b h
    exact resolveTransition_of_steady (getRangeDirection_not_mem h)
  · intro a b ha hb h
    fin_cases ha <;> fin_cases hb <;>
      first
        | decide
        | (exact absurd (by decide) h)
  · intro a b ha hb hpos d hd
    fin_cases ha <;> fin_cases hb <;>
      first
        | (exact absurd hpos (by decide))
        | (obtain ⟨df, dd⟩ := d
           simp [filesTransition] at hd
           obtain ⟨rfl, rfl⟩ := hd
           exact ⟨by decide, by decide⟩)
        | (obtain ⟨df, dd⟩ := d
           simp [filesTransition] at hd)

/-- C4 witness: the adjacent configured pair `S1`, `S2`. -/
theorem claim_C4_witness :
    resolveTransition "S2" "S2" = none ∧
    resolveTransition "S1" "S2" =
      some ⟨"S1_S2", "up", "./media/transition_1_2.json", 700, "forward"⟩ ∧
    resolveTransition "S2" "S1" =
      some ⟨"S1_S2", "down", "./media/transition_1_2.json", 700, "reverse"⟩ := by
  have h := claim_C4.2.2.2 "S1" "S2" (by decide) (by decide) (by decide)
    ⟨"./media/transition_1_2.json", some 700⟩ (by decide)
  exact ⟨claim_C4.1 "S2", h.1, h.2⟩

/-- Executable check that consecutive elements of a list sit at adjacent
order positions. -/
def chainAdjacent : List String → Bool
  | a :: b :: rest => decide ((posOf a - posOf b).natAbs = 1) && chainAdjacent (b :: rest)
  | _ => true

theorem chainAdjacent_iff (l : List String) :
    chainAdjacent l = true ↔ List.Chain' (fun x y => (posOf x - posOf y).natAbs = 1) l := by
  induction l with
  | nil => simp [chainAdjacent]
  | cons a t ih =>
    cases t with
    | nil => simp [chainAdjacent]
    | cons b r => simp [chainAdjacent, List.chain'_cons, ih]

/-- C5: for ranges `a`, `b` in the state order, `buildRangePath a b` starts
at `a`, ends at `b`, has length `|pos a - pos b| + 1`, and walks adjacent
positions; for an unknown `a` it collapses to `[b]`. -/
theorem claim_C5 :
    (∀ a b : String, a ∈ STATE_SEQUENCE → b ∈ STATE_SEQUENCE →
      (buildRangePath a b).head? = some a ∧
      (buildRangePath a b).getLast? = some b ∧
      (buildRangePath a b).length = (posOf a - posOf b).natAbs + 1 ∧
      List.Chain' (fun x y => (posOf x - posOf y).natAbs = 1) (buildRangePath a b)) ∧
    (∀ a b : String, b ∈ STATE_SEQUENCE → a ∉ STATE_SEQUENCE → buildRangePath a b = [b]) := by
  constructor
  · intro a b ha hb
    fin_cases ha <;> fin_cases hb <;>
      exact ⟨by decide, by decide, by decide, (chainAdjacent_iff _).mp (by decide)⟩
  · intro a b hb ha
    have hbne : b ≠ "" := by fin_cases hb <;> decide
    by_cases ha0 : a = ""
    · simp [buildRangePath, ha0, hbne]
    · simp [buildRangePath, ha0, hbne, indexOfJs_of_not_mem ha]

/-- C5 witness: the full descent from `SF` to `S1` and a path from an
unknown previous range. -/
theorem claim_C5_witness :
    (buildRangePath "SF" "S1").head? = some "SF" ∧
    (buildRangePath "SF" "S1").getLast? = some "S1" ∧
    (buildRangePath "SF" "S1").length = (posOf "SF" - posOf "S1").natAbs + 1 ∧
    buildRangePath "unknown" "S2" = ["S2"] := by
  have h := claim_C5.1 "SF" "S1" (by decide) (by decide)
  exact ⟨h.1, h.2.1, h.2.2.1, claim_C5.2 "unknown" "S2" (by decide) (by decide)⟩

/-! Branch lemmas for `animUpdate`. -/

theorem animUpdate_inSF_stay {s : TrackerState} {v : Option ℚ} {t : Int}
    (h1 : s.inSF = true) (h2 : classify v ≠ "S2") :
    animUpdate s v t = ({ s with currentRange := "SF" }, ⟨"SF", none⟩) := by
  simp [animUpdate, h1, h2]

theorem animUpdate_inSF_exit {s : TrackerState} {v : Option ℚ} {t : Int}
    (h1 : s.inSF = true) (h2 : classify v = "S2") :
    animUpdate s v t =
      (⟨"S2", false, none⟩,
       ⟨"S2", some ⟨"S2_S3", "down", "./media/transition_2_3.json", 467, "reverse"⟩⟩) := by
  simp [animUpdate, h1, h2, filesTransition]

theorem animUpdate_S3_first {s : TrackerState} {v : Option ℚ} {t : Int}
    (h1 : s.inSF = false) (h2 : classify v = "S3") (h3 : s.s3EnteredAt = none) :
    animUpdate s v t =
      (⟨"S3", false, some t⟩, ⟨"S3", resolveTransition s.currentRange "S3"⟩) := by
  simp [animUpdate, h1, h2, h3]
  decide

theorem animUpdate_S3_timeout {s : TrackerState} {v : Option ℚ} {t t0 : Int}
    (h1 : s.inSF = false) (h2 : classify v = "S3") (h3 : s.s3EnteredAt = some t0)
    (h4 : SF_TIMEOUT_MS ≤ t - t0) :
    animUpdate s v t = (⟨"SF", true, none⟩, ⟨"SF", none⟩) := by
  simp [animUpdate, h1, h2, h3, h4]

theorem animUpdate_S3_wait {s : TrackerState} {v : Option ℚ} {t t0 : Int}
    (h1 : s.inSF = false) (h2 : classify v = "S3") (h3 : s.s3EnteredAt = some t0)
    (h4 : ¬ SF_TIMEOUT_MS ≤ t - t0) :
    animUpdate s v t =
      (⟨"S3", false, some t0⟩, ⟨"S3", resolveTransition s.currentRange "S3"⟩) := by
  simp [animUpdate, h1, h2, h3, h4]

theorem animUpdate_other {s : TrackerState} {v : Option ℚ} {t : Int}
    (h1 : s.inSF = false) (h2 : classify v ≠ "S3") :
    animUpdate s v t =
      (⟨classify v, false, none⟩,
       ⟨classify v, resolveTransition s.currentRange (classify v)⟩) := by
  by_cases hv2 : classify v = "S2"
  · simp [animUpdate, h1, h2, hv2]
  · simp [animUpdate, h1, h2, hv2]

/-- Dwell invariant for a run of `S3`-classified readings: either the
tracker has escalated (with a cleared timer) or it is still dwelling with
the timer anchored at the first reading's timestamp `t0`. -/
theorem runUpdates_dwell {t0 : Int} :
    ∀ (mid : List (Option ℚ × Int)) (s : TrackerState),
      (∀ p ∈ mid, classify p.1 = "S3") →
      ((s.inSF = true ∧ s.s3EnteredAt = none) ∨
        (s.inSF = false ∧ s.s3EnteredAt = some t0)) →
      (((runUpdates s mid).inSF = true ∧ (runUpdates s mid).s3EnteredAt = none) ∨
        ((runUpdates s mid).inSF = false ∧ (runUpdates s mid).s3EnteredAt = some t0)) := by
  intro mid
  induction mid with
  | nil => intro s _ h; exact h
  | cons p rest ih =>
    rcases p with ⟨v, t⟩
    intro s hall h
    have hv : classify v = "S3" := hall (v, t) (List.mem_cons_self _ _)
    have hrest : ∀ q ∈ rest, classify q.1 = "S3" :=
      fun q hq => hall q (List.mem_cons_of_mem _ hq)
    show (((runUpdates (animUpdate s v t).1 rest).inSF = true ∧ _) ∨ _)
    apply ih _ hrest
    rcases h with ⟨h1, h2⟩ | ⟨h1, h2⟩
    · rw [animUpdate_inSF_stay h1 (by simp [hv])]
      exact Or.inl ⟨h1, h2⟩
    · by_cases ht : SF_TIMEOUT_MS ≤ t - t0
      · rw [animUpdate_S3_timeout h1 hv h2 ht]
        exact Or.inl ⟨rfl, rfl⟩
      · rw [animUpdate_S3_wait h1 hv h2 ht]
        exact Or.inr ⟨rfl, rfl⟩

/-- C2: (a) a run of `S3`-classified readings spanning at least the
timeout from its first reading escalates the tracker to `SF` with a null
transition; (b) while in `SF`, any reading not classified `S2` leaves the
final state untouched and emits nothing; (c) a reading classified `S2`
while in `SF` exits the final state and emits exactly the reverse `S2_S3`
transition with range `S2`. -/
theorem claim_C2 :
    (∀ (s : TrackerState) (v0 : Option ℚ) (t0 : Int) (mid : List (Option ℚ × Int))
       (vl : Option ℚ) (tl : Int),
      s.inSF = false → s.s3EnteredAt = none →
      classify v0 = "S3" → (∀ p ∈ mid, classify p.1 = "S3") → classify vl = "S3" →
      SF_TIMEOUT_MS ≤ tl - t0 →
      animUpdate (runUpdates s ((v0, t0) :: mid)) vl tl =
        (⟨"SF", true, none⟩, ⟨"SF", none⟩)) ∧
    (∀ (s : TrackerState) (v : Option ℚ) (t : Int),
      s.inSF = true → classify v ≠ "S2" →
      animUpdate s v t = ({ s with currentRange := "SF" }, ⟨"SF", none⟩)) ∧
    (∀ (s : TrackerState) (v : Option ℚ) (t : Int),
      s.inSF = true → classify v = "S2" →
      animUpdate s v t =
        (⟨"S2", false, none⟩,
         ⟨"S2", some ⟨"S2_S3", "down", "./media/transition_2_3.json", 467, "reverse"⟩⟩)) := by
  refine ⟨?_, fun s v t h1 h2 => animUpdate_inSF_stay h1 h2,
          fun s v t h1 h2 => animUpdate_inSF_exit h1 h2⟩
  intro s v0 t0 mid vl tl h1 h2 hv0 hmid hvl hspan
  have hfirst : (animUpdate s v0 t0).1 = ⟨"S3", false, some t0⟩ := by
    rw [animUpdate_S3_first h1 hv0 h2]
  have hrun : runUpdates s ((v0, t0) :: mid) = runUpdates (animUpdate s v0 t0).1 mid := rfl
  have hinv := runUpdates_dwell mid (animUpdate s v0 t0).1 hmid
    (by rw [hfirst]; exact Or.inr ⟨rfl, rfl⟩)
  rw [hrun]
  rcases hinv with ⟨ha, hb⟩ | ⟨ha, hb⟩
  · rw [animUpdate_inSF_stay ha (by simp [hvl])]
    simp only [Prod.mk.injEq]
    constructor
    · cases hs : runUpdates (animUpdate s v0 t0).1 mid
      rw [hs] at ha hb
      simp at ha hb
      simp [ha, hb]
    · trivial
  · rw [animUpdate_S3_timeout ha hvl hb hspan]

/-- C2 witness: one reading at time 0 and one at the timeout escalate from
the reset state; the escalated state ignores an `S3` reading and exits on
an `S2` reading with the reverse transition. -/
theorem claim_C2_witness :
    animUpdate (runUpdates trackerReset [(some 95, 0)]) (some 95) 10000 =
      (⟨"SF", true, none⟩, ⟨"SF", none⟩) ∧
    animUpdate ⟨"SF", true, none⟩ (some 95) 3 =
      ({ (⟨"SF", true, none⟩ : TrackerState) with currentRange := "SF" }, ⟨"SF", none⟩) ∧
    animUpdate ⟨"SF", true, none⟩ (some 80) 4 =
      (⟨"S2", false, none⟩,
       ⟨"S2", some ⟨"S2_S3", "down", "./media/transition_2_3.json", 467, "reverse"⟩⟩) :=
  ⟨claim_C2.1 trackerReset (some 95) 0 [] (some 95) 10000 rfl rfl (by decide)
      (by simp) (by decide) (by decide),
   claim_C2.2.1 ⟨"SF", true, none⟩ (some 95) 3 rfl (by decide),
   claim_C2.2.2 ⟨"SF", true, none⟩ (some 80) 4 rfl (by decide)⟩

/-- C7: assuming the tracker's own consistency (a cleared timer whenever it
is in the final state), one `update` step keeps the dwell timestamp
non-null only when the reading classified `S3` and the final state was not
entered; any other classification, and any step that is in or enters the
final state, leaves the timer null — as does `reset`. -/
theorem claim_C7 (s : TrackerState) (v : Option ℚ) (t : Int)
    (hInv : s.inSF = true → s.s3EnteredAt = none) :
    ((animUpdate s v t).1.s3EnteredAt ≠ none →
      classify v = "S3" ∧ (animUpdate s v t).1.inSF = false) ∧
    (classify v ≠ "S3" → (animUpdate s v t).1.s3EnteredAt = none) ∧
    ((animUpdate s v t).1.inSF = true → (animUpdate s v t).1.s3EnteredAt = none) ∧
    trackerReset.s3EnteredAt = none ∧ trackerReset.inSF = false := by
  refine ?_
  by_cases hsf : s.inSF = true
  · by_cases hv : classify v = "S2"
    · rw [animUpdate_inSF_exit hsf hv]
      simp [trackerReset, hv]
    · rw [animUpdate_inSF_stay hsf hv]
      simp [trackerReset, hInv hsf, hsf]
  · have hsf' : s.inSF = false := by simpa using hsf
    by_cases hv : classify v = "S3"
    · rcases hs3 : s.s3EnteredAt with _ | t0
      · rw [animUpdate_S3_first hsf' hv hs3]
        simp [trackerReset, hv]
      · by_cases ht : SF_TIMEOUT_MS ≤ t - t0
        · rw [animUpdate_S3_timeout hsf' hv hs3 ht]
          simp [trackerReset]
        · rw [animUpdate_S3_wait hsf' hv hs3 ht]
          simp [trackerReset, hv]
    · rw [animUpdate_other hsf' hv]
      simp [trackerReset, hv]

/-- C7 witness: the reset tracker processing a quiet reading. -/
theorem claim_C7_witness :
    ((animUpdate trackerReset (some 50) 0).1.s3EnteredAt ≠ none →
      classify (some 50) = "S3" ∧ (animUpdate trackerReset (some 50) 0).1.inSF = false) ∧
    (classify (some 50) ≠ "S3" → (animUpdate trackerReset (some 50) 0).1.s3EnteredAt = none) ∧
    ((animUpdate trackerReset (some 50) 0).1.inSF = true →
      (animUpdate trackerReset (some 50) 0).1.s3EnteredAt = none) ∧
    trackerReset.s3EnteredAt = none ∧ trackerReset.inSF = false :=
  claim_C7 trackerReset (some 50) 0 (by decide)

/-- Channel-wise arithmetic mean of two colors (the expected value at an
exact midpoint, written from the claim; `rgbToHex` performs the
round-to-nearest step). -/
def meanRgb (a b : Rgb) : Rgb :=
  ⟨qdiv (qadd a.r b.r) 2, qdiv (qadd a.g b.g) 2, qdiv (qadd a.b b.b) 2⟩

/-- C8: at or below the first keyframe loudness (76) the mapper returns the
first keyframe's exact color, and non-finite input defaults there; at or
above the last keyframe loudness (105) it returns the last keyframe's exact
color; at the exact midpoint of any two adjacent keyframes it returns the
channel-wise arithmetic mean of the two keyframe colors rounded to the
nearest integer. -/
theorem claim_C8 :
    (∀ v : ℚ, v ≤ 76 → getBackgroundColor (some v) = "#a4f12c") ∧
    getBackgroundColor none = "#a4f12c" ∧
    (∀ v : ℚ, 105 ≤ v → getBackgroundColor (some v) = "#ee5b2d") ∧
    (∀ i : Nat, i + 1 < COLOR_KEYFRAMES.length →
      getBackgroundColor
        (some (qdiv (qadd (COLOR_KEYFRAMES.getD i ⟨0, ""⟩).dB
                          (COLOR_KEYFRAMES.getD (i + 1) ⟨0, ""⟩).dB) 2)) =
      rgbToHex (meanRgb (hexToRgb (COLOR_KEYFRAMES.getD i ⟨0, ""⟩).hex)
                        (hexToRgb (COLOR_KEYFRAMES.getD (i + 1) ⟨0, ""⟩).hex))) := by
  refine ⟨?_, by decide, ?_, ?_⟩
  · intro v h
    simp [getBackgroundColor, COLOR_KEYFRAMES, h]
  · intro v h
    have h76 : ¬ v ≤ 76 := not_le.mpr (lt_of_lt_of_le (by norm_num) h)
    simp [getBackgroundColor, COLOR_KEYFRAMES, h, h76]
  · intro i h
    have h3 : i < 3 := by
      simp only [COLOR_KEYFRAMES, List.length_cons, List.length_nil] at h
      omega
    interval_cases i <;> decide

/-- C8 witness: a quiet reading, a loud reading and the 85/95 midpoint. -/
theorem claim_C8_witness :
    getBackgroundColor (some 60) = "#a4f12c" ∧
    getBackgroundColor (some 120) = "#ee5b2d" ∧
    getBackgroundColor
        (some (qdiv (qadd (COLOR_KEYFRAMES.getD 1 ⟨0, ""⟩).dB
                          (COLOR_KEYFRAMES.getD 2 ⟨0, ""⟩).dB) 2)) =
      rgbToHex (meanRgb (hexToRgb (COLOR_KEYFRAMES.getD 1 ⟨0, ""⟩).hex)
                        (hexToRgb (COLOR_KEYFRAMES.getD 2 ⟨0, ""⟩).hex)) :=
  ⟨claim_C8.1 60 (by norm_num), claim_C8.2.2.1 120 (by norm_num),
   claim_C8.2.2.2 1 (by decide)⟩

/-- C9: with an unready player, `onReading` applies the background color
update and does nothing else: no coroutine starts, no player call is
issued, and `previousRange`, the sequence counter and every tracker field
are untouched, both for the call in isolation and at the system level. -/
theorem claim_C9 (st : CtrlState) (v : Option ℚ) (t : Int) (procs : List (Nat × Prog)) :
    onReadingStart false v t st = ({ st with bgColor := some (getBackgroundColor v) }, none) ∧
    stepSys false ⟨st, procs⟩ (.reading v t) =
      ⟨{ st with bgColor := some (getBackgroundColor v) }, procs⟩ := by
  constructor
  · simp [onReadingStart]
  · simp [stepSys, onReadingStart]

/-! Sequential execution lemmas for `onReading`. -/

theorem resolveTransition_self (r : String) : resolveTransition r r = none :=
  resolveTransition_of_steady (by simp [getRangeDirection])

/-- The steady-state fast path: when the tracker reports the previous range
with no transition, `onReading` only refreshes the color and the tracker. -/
theorem onReadingSeq_noop {st : CtrlState} {v : Option ℚ} {t : Int}
    (hr : (animUpdate st.tracker v t).2.range = st.previousRange)
    (htr : (animUpdate st.tracker v t).2.transition = none) :
    onReadingSeq true v t st =
      { st with bgColor := some (getBackgroundColor v),
                tracker := (animUpdate st.tracker v t).1 } := by
  by_cases hempty : (animUpdate st.tracker v t).2.range = ""
  · simp [onReadingSeq, onReadingStart, hempty]
  · simp [onReadingSeq, onReadingStart, hempty, hr, htr]

/-- Escalation execution: from a controller settled at `S3`, a tracker
result of `SF` with no transition runs the decomposed path `[S3, SF]`,
whose only existing clip is the final steady state. -/
theorem onReadingSeq_sfEntry {st : CtrlState} {v : Option ℚ} {t : Int}
    (hprev : st.previousRange = "S3")
    (hupd : animUpdate st.tracker v t = (⟨"SF", true, none⟩, ⟨"SF", none⟩)) :
    onReadingSeq true v t st =
      { previousRange := "SF", sequenceCounter := st.sequenceCounter + 1,
        tracker := ⟨"SF", true, none⟩, bgColor := some (getBackgroundColor v),
        calls := st.calls ++
          [⟨st.sequenceCounter + 1, "./media/state_final.json", "forward", true⟩] } := by
  have hbrp : buildRangePath "S3" "SF" = ["S3", "SF"] := by decide
  have hrt : resolveTransition "S3" "SF" = none := by decide
  simp [onReadingSeq, onReadingStart, hupd, hprev, mkProg, hbrp,
        playTransitionSequenceProg, ptsLoop, hrt, playSteadyProg, getStateConfig, runProg]

/-- Second call while dwelling in `S3`: either the timeout fires (one
steady `SF` load) or nothing is issued. -/
theorem secondCallS3 (st2 : CtrlState) (v : Option ℚ) (t2 ts : Int)
    (hv : classify v = "S3")
    (htr : st2.tracker = ⟨"S3", false, some ts⟩)
    (hpr : st2.previousRange = "S3") :
    (onReadingSeq true v t2 st2).calls.length ≤ st2.calls.length + 1 := by
  by_cases ht : SF_TIMEOUT_MS ≤ t2 - ts
  · have hu : animUpdate st2.tracker v t2 = (⟨"SF", true, none⟩, ⟨"SF", none⟩) := by
      rw [htr]; exact animUpdate_S3_timeout rfl hv rfl ht
    rw [onReadingSeq_sfEntry hpr hu]
    simp
  · have hu : animUpdate st2.tracker v t2 =
        (⟨"S3", false, some ts⟩, ⟨"S3", resolveTransition "S3" "S3"⟩) := by
      rw [htr]; exact animUpdate_S3_wait rfl hv rfl ht
    have hA : (animUpdate st2.tracker v t2).2.range = st2.previousRange := by
      rw [hu]; exact hpr.symm
    have hB : (animUpdate st2.tracker v t2).2.transition = none := by
      rw [hu]; simp [resolveTransition_self]
    rw [onReadingSeq_noop hA hB]
    simp

/-- Second call in a settled non-top range: the fast path issues nothing. -/
theorem secondCallOther (st2 : CtrlState) (v : Option ℚ) (t2 : Int)
    (hne : classify v ≠ "S3")
    (htr : st2.tracker = ⟨classify v, false, none⟩)
    (hpr : st2.previousRange = classify v) :
    (onReadingSeq true v t2 st2).calls = st2.calls := by
  have hu : animUpdate st2.tracker v t2 =
      (⟨classify v, false, none⟩,
       ⟨classify v, resolveTransition (classify v) (classify v)⟩) := by
    rw [htr]; exact animUpdate_other rfl hne
  have hA : (animUpdate st2.tracker v t2).2.range = st2.previousRange := by
    rw [hu]; exact hpr.symm
  have hB : (animUpdate st2.tracker v t2).2.transition = none := by
    rw [hu]; simp [resolveTransition_self]
  rw [onReadingSeq_noop hA hB]

/-- Second call after escalation: a non-exit reading leaves the final
state and issues nothing. -/
theorem secondCallSFStay (st2 : CtrlState) (v : Option ℚ) (t2 : Int)
    (hv : classify v ≠ "S2")
    (htr : st2.tracker = ⟨"SF", true, none⟩)
    (hpr : st2.previousRange = "SF") :
    (onReadingSeq true v t2 st2).calls = st2.calls := by
  have hu : animUpdate st2.tracker v t2 = (⟨"SF", true, none⟩, ⟨"SF", none⟩) := by
    rw [htr]; exact animUpdate_inSF_stay rfl hv
  have hA : (animUpdate st2.tracker v t2).2.range = st2.previousRange := by
    rw [hu]; exact hpr.symm
  have hB : (animUpdate st2.tracker v t2).2.transition = none := by rw [hu]
  rw [onReadingSeq_noop hA hB]

/-- C6 (amended): once the controller is settled on the very range the
value classifies to (previous range, tracker range and classification all
agree, final state not entered), two consecutive readings of that value
issue at most one player load in total — the one possible load being the
silent escalation to the final state; and whenever the tracker reports the
previous range with no transition plan, `onReading` issues no player call
and does not advance the sequence counter. -/
theorem claim_C6 :
    (∀ (st : CtrlState) (v : Option ℚ) (t1 t2 : Int),
      st.tracker.inSF = false →
      st.previousRange = st.tracker.currentRange →
      classify v = st.previousRange →
      (onReadingSeq true v t2 (onReadingSeq true v t1 st)).calls.length ≤
        st.calls.length + 1) ∧
    (∀ (st : CtrlState) (v : Option ℚ) (t : Int),
      (animUpdate st.tracker v t).2.range = st.previousRange →
      (animUpdate st.tracker v t).2.transition = none →
      (onReadingSeq true v t st).sequenceCounter = st.sequenceCounter ∧
      (onReadingSeq true v t st).calls = st.calls) := by
  constructor
  · intro st v t1 t2 h1 h2 h3
    rcases classify_cases v with hv | hv | hv
    rotate_right
    · -- classified S3: settled at the top range, possibly escalating once
      have hprev : st.previousRange = "S3" := h3.symm.trans hv
      have hcur : st.tracker.currentRange = "S3" := h2.symm.trans hprev
      rcases hs3 : st.tracker.s3EnteredAt with _ | t0
      · have hu1 := animUpdate_S3_first (t := t1) h1 hv hs3
        rw [hcur, resolveTransition_self] at hu1
        have hA : (animUpdate st.tracker v t1).2.range = st.previousRange := by
          rw [hu1]; exact hprev.symm
        have hB : (animUpdate st.tracker v t1).2.transition = none := by rw [hu1]
        rw [onReadingSeq_noop hA hB]
        exact secondCallS3
          { st with bgColor := some (getBackgroundColor v),
                    tracker := (animUpdate st.tracker v t1).1 }
          v t2 t1 hv (by rw [hu1]) hprev
      · by_cases ht1 : SF_TIMEOUT_MS ≤ t1 - t0
        · have hu1 := animUpdate_S3_timeout (t := t1) h1 hv hs3 ht1
          rw [onReadingSeq_sfEntry hprev hu1]
          rw [secondCallSFStay
            { previousRange := "SF", sequenceCounter := st.sequenceCounter + 1,
              tracker := ⟨"SF", true, none⟩, bgColor := some (getBackgroundColor v),
              calls := st.calls ++
                [⟨st.sequenceCounter + 1, "./media/state_final.json", "forward", true⟩] }
            v t2 (by rw [hv]; decide) rfl rfl]
          simp
        · have hu1 := animUpdate_S3_wait (t := t1) h1 hv hs3 ht1
          rw [hcur, resolveTransition_self] at hu1
          have hA : (animUpdate st.tracker v t1).2.range = st.previousRange := by
            rw [hu1]; exact hprev.symm
          have hB : (animUpdate st.tracker v t1).2.transition = none := by rw [hu1]
          rw [onReadingSeq_noop hA hB]
          exact secondCallS3
            { st with bgColor := some (getBackgroundColor v),
                      tracker := (animUpdate st.tracker v t1).1 }
            v t2 t0 hv (by rw [hu1]) hprev
    all_goals
      -- classified S1 or S2: both calls take the steady-state fast path
      have hprev : st.previousRange = classify v := h3.symm
      have hcur : st.tracker.currentRange = classify v := h2.symm.trans hprev
      have hne : classify v ≠ "S3" := by rw [hv]; decide
      have hu1 := animUpdate_other (t := t1) h1 hne
      rw [hcur, resolveTransition_self] at hu1
      have hA : (animUpdate st.tracker v t1).2.range = st.previousRange := by
        rw [hu1]; exact hprev.symm
      have hB : (animUpdate st.tracker v t1).2.transition = none := by rw [hu1]
      rw [onReadingSeq_noop hA hB]
      rw [secondCallOther
        { st with bgColor := some (getBackgroundColor v),
                  tracker := (animUpdate st.tracker v t1).1 }
        v t2 hne (by rw [hu1]) hprev]
      exact Nat.le_succ _
  · intro st v t hr htr
    rw [onReadingSeq_noop hr htr]
    exact ⟨rfl, rfl⟩

/-- C6 witness: a controller settled on `S2` fed the value 80 twice, and
the fast path at that state. -/
theorem claim_C6_witness :
    (⟨"S2", 0, ⟨"S2", false, none⟩, none, []⟩ : CtrlState).tracker.inSF = false ∧
    (onReadingSeq true (some 80) 7
        (onReadingSeq true (some 80) 3
          ⟨"S2", 0, ⟨"S2", false, none⟩, none, []⟩)).calls.length ≤ 0 + 1 ∧
    (onReadingSeq true (some 80) 3
        ⟨"S2", 0, ⟨"S2", false, none⟩, none, []⟩).sequenceCounter = 0 :=
  ⟨rfl,
   claim_C6.1 ⟨"S2", 0, ⟨"S2", false, none⟩, none, []⟩ (some 80) 3 7 rfl rfl (by decide),
   (claim_C6.2 ⟨"S2", 0, ⟨"S2", false, none⟩, none, []⟩ (some 80) 3 (by decide) (by decide)).1⟩

/-- C6 counterexample: the claim's settledness hypothesis (previous range
equal to the tracker's current range, no in-flight sequence) does not
mention the fed value; a controller settled at `S1` receiving the value 95
twice issues three player loads on the first call alone (two transition
clips and the `S3` steady clip), refuting "at most one player load call in
total". -/
theorem claim_C6_counterexample :
    (⟨"S1", 0, ⟨"S1", false, none⟩, none, []⟩ : CtrlState).previousRange =
      (⟨"S1", 0, ⟨"S1", false, none⟩, none, []⟩ : CtrlState).tracker.currentRange ∧
    (onReadingSeq true (some 95) 0
        (onReadingSeq true (some 95) 0
          ⟨"S1", 0, ⟨"S1", false, none⟩, none, []⟩)).calls.length = 3 :=
  ⟨rfl, by decide⟩

/-! Token discipline of the coroutine programs.  `safe true p` describes a
program at a point where its token is known current (just after a passed
check, or at spawn time); `safe false p` describes a suspended program:
every `load` it can reach within one atomic segment sits behind a passed
token check. -/

/-- Segment safety of a coroutine program. -/
def safe : Bool → Prog → Bool
  | _, .done => true
  | chk, .setPrev _ k => safe chk k
  | _, .delay _ k => safe false k
  | _, .check kOk kStale => safe true kOk && safe false kStale
  | chk, .load _ _ _ k => chk && safe false k

theorem safe_fin (b : Bool) (r : String) : safe b (Prog.setPrev r .done) = true := by
  cases b <;> rfl

theorem safe_playSteadyProg (r : String) (k : Prog)
    (h1 : safe true k = true) (h2 : safe false k = true) (b : Bool) :
    safe b (playSteadyProg r k) = true := by
  unfold playSteadyProg
  cases hc : getStateConfig r <;> simp [safe, h1, h2]

theorem safe_ptsLoop (k : Prog) (h1 : safe true k = true) (h2 : safe false k = true) :
    ∀ (path : List String) (b : Bool), safe b (ptsLoop k path) = true := by
  intro path
  induction path with
  | nil => intro b; cases b <;> simp [ptsLoop, h1, h2]
  | cons a rest ih =>
    intro b
    cases rest with
    | nil => simpa [ptsLoop] using safe_playSteadyProg a k h1 h2 b
    | cons c cs =>
      cases hr : resolveTransition a c with
      | none => simp [ptsLoop, hr, safe, ih, h2]
      | some tr => simp [ptsLoop, hr, safe, ih, h2]

theorem safe_pts (path : List String) (k : Prog)
    (h1 : safe true k = true) (h2 : safe false k = true) (b : Bool) :
    safe b (playTransitionSequenceProg path k) = true := by
  cases path with
  | nil => cases b <;> simp [playTransitionSequenceProg, h1, h2]
  | cons a rest =>
    cases rest with
    | nil => simpa [playTransitionSequenceProg] using safe_playSteadyProg a k h1 h2 b
    | cons c cs =>
      simpa [playTransitionSequenceProg] using safe_ptsLoop k h1 h2 (a :: c :: cs) b

theorem safe_mkProg (res : UpdateResult) (oldPrev : String) :
    safe true (mkProg res oldPrev) = true := by
  have h1 := safe_fin true res.range
  have h2 := safe_fin false res.range
  cases ht : res.transition with
  | none =>
    simpa [mkProg, ht] using
      safe_pts (buildRangePath oldPrev res.range) _ h1 h2 true
  | some tr =>
    simp only [mkProg, ht, safe, Bool.true_and]
    exact safe_playSteadyProg _ _ h1 h2 false

/-- Specification of one atomic coroutine step: the counter and tracker are
untouched, every appended call carries the coroutine's token and is only
appended while that token is current, and the suspended remainder is again
segment-safe. -/
theorem run1_spec (ready : Bool) (tk : Nat) (p : Prog) :
    ∀ (chk : Bool) (st : CtrlState),
      safe chk p = true → (chk = true → tk = st.sequenceCounter) →
      (run1 ready tk p st).1.sequenceCounter = st.sequenceCounter ∧
      (run1 ready tk p st).1.tracker = st.tracker ∧
      (∃ extra, (run1 ready tk p st).1.calls = st.calls ++ extra ∧
        ∀ c ∈ extra, c.token = tk ∧ tk = st.sequenceCounter) ∧
      (∀ q, (run1 ready tk p st).2 = some q → safe false q = true) := by
  induction p with
  | done =>
    intro chk st hs hchk
    refine ⟨rfl, rfl, ⟨[], by simp [run1], by simp⟩, ?_⟩
    intro q hq
    simp [run1] at hq
  | load src mode lp k ih =>
    intro chk st hs hchk
    have hs' : chk = true ∧ safe false k = true := by simpa [safe] using hs
    have htk : tk = st.sequenceCounter := hchk hs'.1
    by_cases hg : ready ∧ src ≠ ""
    · refine ⟨by simp [run1, hg], by simp [run1, hg], ?_, ?_⟩
      · exact ⟨[⟨tk, src, mode, lp⟩], by simp [run1, hg],
          by intro c hc; simp at hc; subst hc; exact ⟨rfl, htk⟩⟩
      · intro q hq
        simp [run1] at hq
        subst hq
        exact hs'.2
    · refine ⟨by simp [run1, hg], by simp [run1, hg], ⟨[], by simp [run1, hg], by simp⟩, ?_⟩
      intro q hq
      simp [run1] at hq
      subst hq
      exact hs'.2
  | delay ms k ih =>
    intro chk st hs hchk
    refine ⟨rfl, rfl, ⟨[], by simp [run1], by simp⟩, ?_⟩
    intro q hq
    simp [run1] at hq
    subst hq
    simpa [safe] using hs
  | check a b iha ihb =>
    intro chk st hs hchk
    have hs' : safe true a = true ∧ safe false b = true := by simpa [safe] using hs
    by_cases h : tk = st.sequenceCounter
    · simpa [run1, h] using iha true st hs'.1 (fun _ => h)
    · simpa [run1, h] using ihb false st hs'.2 (by intro hh; exact absurd hh (by decide))
  | setPrev r k ih =>
    intro chk st hs hchk
    have := ih chk { st with previousRange := r } (by simpa [safe] using hs) hchk
    simpa [run1] using this

/-- Specification of `onReadingStart`: the synchronous part of a reading
never touches the call trace, never decreases the counter, and a spawned
coroutine owns exactly the freshly incremented counter and starts
segment-safe. -/
theorem onReadingStart_spec (ready : Bool) (v : Option ℚ) (t : Int) (st : CtrlState) :
    (onReadingStart ready v t st).1.calls = st.calls ∧
    st.sequenceCounter ≤ (onReadingStart ready v t st).1.sequenceCounter ∧
    (∀ tk p, (onReadingStart ready v t st).2 = some (tk, p) →
      tk = (onReadingStart ready v t st).1.sequenceCounter ∧ safe true p = true) := by
  unfold onReadingStart
  by_cases hr : ready = false
  · simp [hr]
  · by_cases h1 : (animUpdate st.tracker v t).2.range = ""
    · simp [hr, h1]
    · by_cases h2 : (animUpdate st.tracker v t).2.range = st.previousRange ∧
          (animUpdate st.tracker v t).2.transition = none
      · simp [hr, h1, h2]
      · refine ⟨by simp [hr, h1, h2], by simp [hr, h1, h2], ?_⟩
        intro tk p hp
        obtain ⟨htk, hpp⟩ : st.sequenceCounter + 1 = tk ∧
            mkProg (animUpdate st.tracker v t).2 st.previousRange = p := by
          simpa [hr, h1, h2] using hp
        subst htk
        subst hpp
        exact ⟨by simp [hr, h1, h2], safe_mkProg _ _⟩

/-- The reachable-system invariant: every pending coroutine's token is at
most the counter and its program is segment-safe; every issued call's token
is at most the counter; and the call trace carries nondecreasing tokens. -/
def SysInv (sys : Sys) : Prop :=
  (∀ pr ∈ sys.procs, pr.1 ≤ sys.ctrl.sequenceCounter ∧ safe false pr.2 = true) ∧
  (∀ c ∈ sys.ctrl.calls, c.token ≤ sys.ctrl.sequenceCounter) ∧
  sys.ctrl.calls.Pairwise (fun a b => a.token ≤ b.token)

theorem pairwise_of_allEq {l : List TaggedCall} {n : Nat} (h : ∀ c ∈ l, c.token = n) :
    l.Pairwise (fun a b => a.token ≤ b.token) := by
  induction l with
  | nil => exact List.Pairwise.nil
  | cons a rest ih =>
    refine List.Pairwise.cons ?_ (ih (fun c hc => h c (List.mem_cons_of_mem _ hc)))
    intro b hb
    rw [h a (List.mem_cons_self _ _), h b (List.mem_cons_of_mem _ hb)]

/-- One system step preserves the invariant, never decreases the counter,
and only appends calls tagged with the counter current at issuance. -/
theorem stepSys_preserves (ready : Bool) (ev : Event) (sys : Sys) (h : SysInv sys) :
    SysInv (stepSys ready sys ev) ∧
    sys.ctrl.sequenceCounter ≤ (stepSys ready sys ev).ctrl.sequenceCounter ∧
    ∃ extra, (stepSys ready sys ev).ctrl.calls = sys.ctrl.calls ++ extra ∧
      ∀ c ∈ extra, c.token = (stepSys ready sys ev).ctrl.sequenceCounter := by
  obtain ⟨hprocs, hcalls, hpw⟩ := h
  cases ev with
  | reading v t =>
    rcases hstart : onReadingStart ready v t sys.ctrl with ⟨st1, opt⟩
    have hspec := onReadingStart_spec ready v t sys.ctrl
    rw [hstart] at hspec
    obtain ⟨hc1, hcount1, hspawn⟩ := hspec
    cases opt with
    | none =>
      have hstep : stepSys ready sys (.reading v t) = ⟨st1, sys.procs⟩ := by
        simp [stepSys, hstart]
      rw [hstep]
      refine ⟨⟨?_, ?_, ?_⟩, hcount1, ⟨[], by simpa using hc1, by simp⟩⟩
      · intro pr hpr
        exact ⟨le_trans (hprocs pr hpr).1 hcount1, (hprocs pr hpr).2⟩
      · intro c hc
        rw [hc1] at hc
        exact le_trans (hcalls c hc) hcount1
      · show st1.calls.Pairwise _
        rw [hc1]
        exact hpw
    | some tp =>
      rcases tp with ⟨tk, p⟩
      obtain ⟨htk, hsafe⟩ := hspawn tk p rfl
      rcases hrun : run1 ready tk p st1 with ⟨st2, rest⟩
      have hrspec := run1_spec ready tk p true st1 hsafe (fun _ => htk)
      rw [hrun] at hrspec
      obtain ⟨hcnt2, htr2, ⟨extra, hce, hext⟩, hrest⟩ := hrspec
      have hstep : stepSys ready sys (.reading v t) =
          ⟨st2, sys.procs ++ [(tk, rest.getD .done)]⟩ := by
        simp [stepSys, hstart, hrun]
      rw [hstep]
      have htk2 : tk = st2.sequenceCounter := htk.trans hcnt2.symm
      have hold : sys.ctrl.sequenceCounter ≤ st2.sequenceCounter :=
        le_trans hcount1 (le_of_eq hcnt2.symm)
      have hce2 : st2.calls = sys.ctrl.calls ++ extra := by rw [hce, hc1]
      refine ⟨⟨?_, ?_, ?_⟩, hold, ⟨extra, hce2, fun c hc => (hext c hc).1.trans htk2⟩⟩
      · intro pr hpr
        rcases List.mem_append.mp hpr with hm | hm
        · exact ⟨le_trans (hprocs pr hm).1 hold, (hprocs pr hm).2⟩
        · have hm' : pr = (tk, rest.getD .done) := by simpa using hm
          subst hm'
          refine ⟨le_of_eq htk2, ?_⟩
          cases hr : rest with
          | none => rfl
          | some q => exact hrest q hr
      · intro c hc
        rw [hce2] at hc
        rcases List.mem_append.mp hc with hm | hm
        · exact le_trans (hcalls c hm) hold
        · exact le_of_eq ((hext c hm).1.trans htk2)
      · show st2.calls.Pairwise _
        rw [hce2]
        refine List.pairwise_append.mpr
          ⟨hpw, pairwise_of_allEq (n := tk) (fun c hc => (hext c hc).1), ?_⟩
        intro a ha b hb
        rw [(hext b hb).1, htk]
        exact le_trans (hcalls a ha) hcount1
  | resume i =>
    cases hget : sys.procs[i]? with
    | none =>
      have hstep : stepSys ready sys (.resume i) = sys := by simp [stepSys, hget]
      rw [hstep]
      exact ⟨⟨hprocs, hcalls, hpw⟩, le_refl _, ⟨[], by simp, by simp⟩⟩
    | some tp =>
      rcases tp with ⟨tk, p⟩
      have hmem : (tk, p) ∈ sys.procs := by
        have := List.getElem?_eq_some_iff.mp hget
        rcases this with ⟨hlt, hEq⟩
        exact hEq ▸ List.getElem_mem hlt
      obtain ⟨htkle, hsafe⟩ := hprocs (tk, p) hmem
      rcases hrun : run1 ready tk p sys.ctrl with ⟨st2, rest⟩
      have hrspec := run1_spec ready tk p false sys.ctrl hsafe
        (by intro hh; exact absurd hh (by decide))
      rw [hrun] at hrspec
      obtain ⟨hcnt2, htr2, ⟨extra, hce, hext⟩, hrest⟩ := hrspec
      have hstep : stepSys ready sys (.resume i) =
          ⟨st2, sys.procs.set i (tk, rest.getD .done)⟩ := by
        simp [stepSys, hget, hrun]
      rw [hstep]
      refine ⟨⟨?_, ?_, ?_⟩, le_of_eq hcnt2.symm,
        ⟨extra, hce, fun c hc => ((hext c hc).1.trans ((hext c hc).2.trans hcnt2.symm))⟩⟩
      · intro pr hpr
        rcases List.mem_or_eq_of_mem_set hpr with hm | hm
        · exact ⟨le_trans (hprocs pr hm).1 (le_of_eq hcnt2.symm), (hprocs pr hm).2⟩
        · subst hm
          refine ⟨le_trans htkle (le_of_eq hcnt2.symm), ?_⟩
          cases hr : rest with
          | none => rfl
          | some q => exact hrest q hr
      · intro c hc
        rw [hce] at hc
        rcases List.mem_append.mp hc with hm | hm
        · exact le_trans (hcalls c hm) (le_of_eq hcnt2.symm)
        · exact le_of_eq ((hext c hm).1.trans ((hext c hm).2.trans hcnt2.symm))
      · show st2.calls.Pairwise _
        rw [hce]
        refine List.pairwise_append.mpr
          ⟨hpw, pairwise_of_allEq (n := tk) (fun c hc => (hext c hc).1), ?_⟩
        intro a ha b hb
        rw [(hext b hb).1]
        rcases List.eq_nil_or_concat extra with he | _
        · subst he
          simp at hb
        · exact le_trans (hcalls a ha) (le_of_eq (hext b hb).2.symm)

/-- Running any event list preserves the invariant, never decreases the
counter, and only appends calls whose tokens are at least the counter at
the start of the run. -/
theorem runSys_preserves (ready : Bool) (evs : List Event) :
    ∀ (sys : Sys), SysInv sys →
      SysInv (runSys ready sys evs) ∧
      sys.ctrl.sequenceCounter ≤ (runSys ready sys evs).ctrl.sequenceCounter ∧
      ∃ extra, (runSys ready sys evs).ctrl.calls = sys.ctrl.calls ++ extra ∧
        ∀ c ∈ extra, sys.ctrl.sequenceCounter ≤ c.token := by
  induction evs with
  | nil =>
    intro sys h
    exact ⟨h, le_refl _, ⟨[], by simp [runSys], by simp⟩⟩
  | cons e rest ih =>
    intro sys h
    have hfold : runSys ready sys (e :: rest) = runSys ready (stepSys ready sys e) rest := rfl
    obtain ⟨h1, hc1, ⟨e1, he1, hx1⟩⟩ := stepSys_preserves ready e sys h
    obtain ⟨h2, hc2, ⟨e2, he2, hx2⟩⟩ := ih (stepSys ready sys e) h1
    rw [hfold]
    refine ⟨h2, le_trans hc1 hc2, ⟨e1 ++ e2, ?_, ?_⟩⟩
    · rw [he2, he1, List.append_assoc]
    · intro c hc
      rcases List.mem_append.mp hc with hm | hm
      · exact le_trans hc1 (le_of_eq (hx1 c hm).symm)
      · exact le_trans hc1 (hx2 c hm)

theorem SysInv_init : SysInv initSys := by
  refine ⟨?_, ?_, ?_⟩ <;> simp [initSys, initCtrl, SysInv]

/-- C1 (amended): in every reachable system, a coroutine suspended with a
token that is no longer the latest issued counter contributes no further
player load to the trace under any continuation of the run, and the trace
always carries its calls in nondecreasing token order — so the calls of a
later reading, its final steady-state load included, come after every call
of any superseded sequence.  (The stale sequence does, however, still
perform its trailing `previousRange` assignment; see the counterexample.) -/
theorem claim_C1 (ready : Bool) (evs1 evs2 : List Event) (tk : Nat) (p : Prog)
    (hmem : (tk, p) ∈ (runSys ready initSys evs1).procs)
    (hstale : tk ≠ (runSys ready initSys evs1).ctrl.sequenceCounter) :
    (runSys ready (runSys ready initSys evs1) evs2).ctrl.calls.filter
        (fun c => c.token == tk) =
      (runSys ready initSys evs1).ctrl.calls.filter (fun c => c.token == tk) ∧
    (runSys ready (runSys ready initSys evs1) evs2).ctrl.calls.Pairwise
      (fun a b => a.token ≤ b.token) := by
  obtain ⟨hinv1, _, _⟩ := runSys_preserves ready evs1 initSys SysInv_init
  have htk_lt : tk < (runSys ready initSys evs1).ctrl.sequenceCounter :=
    lt_of_le_of_ne (hinv1.1 (tk, p) hmem).1 hstale
  obtain ⟨hinv2, _, ⟨extra, hcalls, hext⟩⟩ :=
    runSys_preserves ready evs2 (runSys ready initSys evs1) hinv1
  constructor
  · rw [hcalls, List.filter_append]
    have hnil : extra.filter (fun c => c.token == tk) = [] := by
      apply List.filter_eq_nil_iff.mpr
      intro c hc
      have := hext c hc
      simp only [beq_iff_eq]
      omega
    rw [hnil, List.append_nil]
  · exact hinv2.2.2

/-- The remainder, at its first suspension point, of the playback sequence
spawned by a reading classified `S2` from the initial state: the `S1_S2`
transition clip has been loaded, and the coroutine is about to wait out its
duration. -/
def staleRemainder : Prog :=
  .check
    (.delay 700
      (.check (.load "./media/state_2.json" "forward" true (.setPrev "S2" .done))
        (.setPrev "S2" .done)))
    (.setPrev "S2" .done)

/-- The two-reading scenario: a reading of 80 starts a multi-step sequence
(token 1), and a reading of 95 immediately supersedes it (token 2). -/
def staleScenario : List Event := [.reading (some 80) 0, .reading (some 95) 0]

/-- C1 witness: after the two readings, token 1's coroutine is suspended
and stale, and resuming it adds no call tagged 1 to the trace. -/
theorem claim_C1_witness :
    (1, staleRemainder) ∈ (runSys true initSys staleScenario).procs ∧
    1 ≠ (runSys true initSys staleScenario).ctrl.sequenceCounter ∧
    (runSys true (runSys true initSys staleScenario) [.resume 0]).ctrl.calls.filter
        (fun c => c.token == 1) =
      (runSys true initSys staleScenario).ctrl.calls.filter (fun c => c.token == 1) :=
  ⟨by decide, by decide,
   (claim_C1 true staleScenario [.resume 0] 1 staleRemainder (by decide) (by decide)).1⟩

/-- C1 counterexample: the claim as stated also asserts that a superseded
sequence does not advance `previousRange`; in the two-reading scenario the
stale coroutine (token 1, counter already 2), when resumed at its
suspension point, issues no player call but still performs
`previousRange = nextRange`, moving `previousRange` from `S1` to `S2`. -/
theorem claim_C1_counterexample :
    (runSys true initSys staleScenario).procs.head?.map Prod.fst = some 1 ∧
    (runSys true initSys staleScenario).ctrl.sequenceCounter = 2 ∧
    (runSys true initSys staleScenario).ctrl.previousRange = "S1" ∧
    (stepSys true (runSys true initSys staleScenario) (.resume 0)).ctrl.calls =
      (runSys true initSys staleScenario).ctrl.calls ∧
    (stepSys true (runSys true initSys staleScenario) (.resume 0)).ctrl.previousRange =
      "S2" := by
  refine ⟨by decide, by decide, by decide, by decide, by decide⟩

end DbWatch
